import Mathlib

/-!
Shallow embedding of `tictactoe.py`: the board/state engine (`Game`),
the three automated players (`RandomPlayer`, `SmartPlayer`,
`PerfectPlayer`), and theorems checking the specification's claims
about them.

Cells hold 0 (empty), 1 (X, `PlayerA`) or 10 (O, `PlayerB`), exactly as
in the source.  Randomness (`random.choice(lst)`) is modelled by the
candidate list `lst` itself: a theorem about "every resolution of the
random choice" quantifies over the list's members.  Exceptions are
modelled with `Option`: `none` stands for the raised exception at each
use site (`SpaceOccupied` for `Game.play`, the full-board early return
for `RandomPlayer.play`).  Terminal rendering (`display_state`,
`debug`, curses calls) has no effect on the game state and is elided.
-/

namespace TicTacToe

/-- The ↘ diagonal, `LEFT_DIAGONAL` in the source. -/
def LEFT_DIAGONAL : List (Nat × Nat) := [(0, 0), (1, 1), (2, 2)]

/-- The ↙ diagonal, `RIGHT_DIAGONAL` in the source. -/
def RIGHT_DIAGONAL : List (Nat × Nat) := [(0, 2), (1, 1), (2, 0)]

/-- The four corner coordinates, `CORNERS` in the source. -/
def CORNERS : List (Nat × Nat) := [(0, 0), (0, 2), (2, 0), (2, 2)]

/-- The four side coordinates, `SIDES` in the source. -/
def SIDES : List (Nat × Nat) := [(0, 1), (1, 0), (1, 2), (2, 1)]

/-- The center coordinate, `CENTER` in the source. -/
def CENTER : Nat × Nat := (1, 1)

/-- `flip_loc(val) = (val + 2) % 4`, docstring: "Switches 0 to 2 and vice versa". -/
def flip_loc (val : Nat) : Nat := (val + 2) % 4

/-- Game state: `rows` is the 3x3 board (0 = empty, 1 = X, 10 = O),
`current_turn` the marker of the player to move, `won` the win flag.
The source's `TurnAlternator([1, 10])` keeps, besides the value just
returned (`current_turn`), a one-item lookahead cache that always holds
the other marker; the cache is represented by the derived `next_turn`
below, and advancing the alternator by replacing `current_turn` with
`next_turn`. -/
structure Game where
  rows : List (List Nat)
  current_turn : Nat
  won : Bool
deriving DecidableEq, Repr

/-- A fresh game: empty board, X (= 1) to move, `won = False`. -/
def Game.init : Game := ⟨[[0, 0, 0], [0, 0, 0], [0, 0, 0]], 1, false⟩

/-- `self.turns.peek()` (the `next_turn` property): the marker of the
player who moves after the current one. -/
def Game.next_turn (g : Game) : Nat := if g.current_turn = 1 then 10 else 1

/-- Read `self.rows[y][x]` (total version; all real callers are in range). -/
def Game.getCell (g : Game) (y x : Nat) : Nat := (g.rows.getD y []).getD x 0

/-- `self.columns`: `[r[idx] for r in self.rows]` for `idx` in 0, 1, 2. -/
def Game.columns (g : Game) : List (List Nat) :=
  (List.range 3).map fun idx => g.rows.map fun r => r.getD idx 0

/-- `self.left_diagonal`. -/
def Game.left_diagonal (g : Game) : List Nat :=
  LEFT_DIAGONAL.map fun p => g.getCell p.1 p.2

/-- `self.right_diagonal`. -/
def Game.right_diagonal (g : Game) : List Nat :=
  RIGHT_DIAGONAL.map fun p => g.getCell p.1 p.2

/-- `self.lines`: the 8 `(values, spaces)` pairs — 3 rows top to bottom,
3 columns left to right, then the two diagonals, ↘ before ↙. -/
def Game.lines (g : Game) : List (List Nat × List (Nat × Nat)) :=
  (g.rows.enum.map fun p => (p.2, (List.range 3).map fun x => (p.1, x)))
    ++ (g.columns.enum.map fun p => (p.2, (List.range 3).map fun y => (y, p.1)))
    ++ [(g.left_diagonal, LEFT_DIAGONAL), (g.right_diagonal, RIGHT_DIAGONAL)]

/-- `Game.play(y, x)` as a state transformer.  The second component is
`some True` when the game is over (a win or a draw), `some False` when
it continues, and `none` when the move raised `SpaceOccupied`, in which
case the first component is the unchanged state: the source raises
before mutating anything. -/
def Game.playFull (g : Game) (y x : Nat) : Game × Option Bool :=
  if (g.rows.getD y []).getD x 0 = 0 then
    let g1 : Game := { g with rows := g.rows.set y ((g.rows.getD y []).set x g.current_turn) }
    if g1.lines.any fun vs => vs.1.sum = 3 * g.current_turn then
      ({ g1 with won := true }, some true)
    else if g1.rows.any fun row => row.contains 0 then
      ({ g1 with current_turn := g1.next_turn }, some false)
    else
      (g1, some true)
  else
    (g, none)

/-- `Game.play` in `Option` form: `none` models the `SpaceOccupied`
exception, `some (g1, over)` the mutated state and returned Boolean. -/
def Game.play (g : Game) (y x : Nat) : Option (Game × Bool) :=
  match g.playFull y x with
  | (g1, some over) => some (g1, over)
  | (_, none) => none

/-- `self.corners`: `(value, location)` pairs of the four corners. -/
def Game.corners (g : Game) : List (Nat × (Nat × Nat)) :=
  CORNERS.map fun p => (g.getCell p.1 p.2, p)

/-- `self.sides`: `(value, location)` pairs of the four sides. -/
def Game.sides (g : Game) : List (Nat × (Nat × Nat)) :=
  SIDES.map fun p => (g.getCell p.1 p.2, p)

/-- `RandomPlayer.play`'s `open_list`: every empty coordinate, row by row. -/
def RandomPlayer.openList (g : Game) : List (Nat × Nat) :=
  g.rows.enum.flatMap fun p =>
    p.2.enum.filterMap fun q => if q.2 = 0 then some (p.1, q.1) else none

/-- `RandomPlayer.play`: `none` when the board is full (the source shows
"The board is full" and returns without playing — the spec's
`NoLegalMove`); otherwise the `Game.play` outcome of each empty cell,
one entry for every possible resolution of `random.choice`. -/
def RandomPlayer.play (g : Game) : Option (List (Option (Game × Bool))) :=
  if RandomPlayer.openList g = [] then none
  else some ((RandomPlayer.openList g).map fun mv => g.play mv.1 mv.2)

/-- The Win rule of `SmartPlayer._play`: the first line whose values sum
to `2 * current_turn`; the move is that line's empty cell,
`spaces[values.index(0)]`. -/
def SmartPlayer.winMove (g : Game) : Option (Nat × Nat) :=
  g.lines.findSome? fun vs =>
    if vs.1.sum = 2 * g.current_turn then some (vs.2.getD (vs.1.indexOf 0) (0, 0)) else none

/-- The Block rule of `SmartPlayer._play`: the same test against `2 * next_turn`. -/
def SmartPlayer.blockMove (g : Game) : Option (Nat × Nat) :=
  g.lines.findSome? fun vs =>
    if vs.1.sum = 2 * g.next_turn then some (vs.2.getD (vs.1.indexOf 0) (0, 0)) else none

/-- The move chosen by `SmartPlayer._play`: the Win rule is scanned over
all lines before the Block rule is consulted; `none` when neither rule
fires (the source then falls back to `RandomPlayer.play`). -/
def SmartPlayer.move (g : Game) : Option (Nat × Nat) :=
  match SmartPlayer.winMove g with
  | some mv => some mv
  | none => SmartPlayer.blockMove g

/-- The support of `random.choice` in `PerfectPlayer._first_play`:
corners when moving first (marker 1); when moving second, corners if
the center is taken, the center if X holds a corner, else the
center/adjacent/opposite options around the occupied side cell.  When
no side cell is occupied the source's `for ... break` loop leaves the
last iterated pair bound, hence the `(0, (2, 1))` default. -/
def PerfectPlayer.firstPlayCandidates (g : Game) : List (Nat × Nat) :=
  if g.current_turn = 1 then CORNERS
  else if g.getCell 1 1 ≠ 0 then CORNERS
  else if (g.corners.map fun p => p.1).contains 1 then [CENTER]
  else
    let p := (g.sides.find? fun q => q.1 ≠ 0).getD (0, (2, 1))
    if p.2.1 = 1 then [(1, 1), (0, p.2.2), (2, p.2.2), (1, flip_loc p.2.2)]
    else [(1, 1), (p.2.1, 0), (p.2.1, 2), (flip_loc p.2.1, 1)]

/-- One marker's tally in `PerfectPlayer._play`: for every line whose
values sum to `m` (for `m` in {1, 10}: one cell holding `m`, two
empty), the line's coordinates with the occupied one
(`spaces[values.index(s)]`) deleted, concatenated with multiplicity.
This is the multiset of increments received by the `x_spaces` /
`o_spaces` defaultdict. -/
def PerfectPlayer.forkTally (g : Game) (m : Nat) : List (Nat × Nat) :=
  g.lines.flatMap fun vs =>
    if vs.1.sum = m then vs.2.eraseIdx (vs.1.indexOf m) else []

/-- The fork (or block-fork) candidates for marker `m`: the coordinates
whose tally exceeds 1 (`val > 1` over the dict items); `dedup` mirrors
the dict's unique keys.  The source's dict iteration order may differ,
but `random.choice` makes only the set of candidates observable. -/
def PerfectPlayer.forkMoves (g : Game) (m : Nat) : List (Nat × Nat) :=
  ((PerfectPlayer.forkTally g m).filter fun c => 1 < (PerfectPlayer.forkTally g m).count c).dedup

/-- `[loc for val, loc in game.sides if val == 0]`. -/
def PerfectPlayer.emptySides (g : Game) : List (Nat × Nat) :=
  g.sides.filterMap fun p => if p.1 = 0 then some p.2 else none

/-- `[loc for val, loc in game.corners if val == 0]`. -/
def PerfectPlayer.emptyCorners (g : Game) : List (Nat × Nat) :=
  g.corners.filterMap fun p => if p.1 = 0 then some p.2 else none

/-- The opposite-corner rule: the first corner (in `CORNERS` order) held
by the opponent (`val == game.next_turn`) whose diagonally opposite
cell — both coordinates passed through `flip_loc` — is empty.  The
source plays inside `try` and ignores `SpaceOccupied`, moving on to the
next corner; the emptiness check models that retry. -/
def PerfectPlayer.oppositeCornerMove (g : Game) : Option (Nat × Nat) :=
  g.corners.findSome? fun p =>
    if p.1 = g.next_turn then
      if g.getCell (flip_loc p.2.1) (flip_loc p.2.2) = 0 then
        some (flip_loc p.2.1, flip_loc p.2.2)
      else none
    else none

/-- The support of the move chosen by `PerfectPlayer._play` past the
opening: center-side, own fork, block fork, center, opposite corner,
any corner, any side — in the source's order. -/
def PerfectPlayer.steadyCandidates (g : Game) : List (Nat × Nat) :=
  let sideMoves := if g.getCell 1 1 = g.current_turn then PerfectPlayer.emptySides g else []
  if sideMoves ≠ [] then sideMoves
  else
    let mine := if g.current_turn = 1 then PerfectPlayer.forkMoves g 1 else PerfectPlayer.forkMoves g 10
    let theirs := if g.current_turn = 1 then PerfectPlayer.forkMoves g 10 else PerfectPlayer.forkMoves g 1
    if mine ≠ [] then mine
    else if theirs ≠ [] then theirs
    else if g.getCell 1 1 = 0 then [(1, 1)]
    else
      match PerfectPlayer.oppositeCornerMove g with
      | some mv => [mv]
      | none =>
        if PerfectPlayer.emptyCorners g ≠ [] then PerfectPlayer.emptyCorners g
        else PerfectPlayer.emptySides g

/-- The support of `random.choice` in `PerfectPlayer.play` together with
the updated `first_turn` flag: `SmartPlayer._play`'s Win/Block move is
tried first (leaving the flag untouched); otherwise `_first_play` runs
while the flag is set and clears it, else the steady-state chain runs. -/
def PerfectPlayer.step (g : Game) (firstTurn : Bool) : List (Nat × Nat) × Bool :=
  match SmartPlayer.move g with
  | some mv => ([mv], firstTurn)
  | none =>
    if firstTurn then (PerfectPlayer.firstPlayCandidates g, false)
    else (PerfectPlayer.steadyCandidates g, false)

/-- The arguments `_first_play` passes to `flip_loc`: one call, on the
occupied side cell's column (middle-row case) or row (middle-column
case), made only in the side branch. -/
def PerfectPlayer.firstPlayFlipArgs (g : Game) : List Nat :=
  if g.current_turn = 1 then []
  else if g.getCell 1 1 ≠ 0 then []
  else if (g.corners.map fun p => p.1).contains 1 then []
  else
    let p := (g.sides.find? fun q => q.1 ≠ 0).getD (0, (2, 1))
    if p.2.1 = 1 then [p.2.2] else [p.2.1]

/-- The arguments the opposite-corner rule passes to `flip_loc`: both
coordinates of every corner held by the opponent (a superset of the
calls actually executed, since the scan returns at the first success). -/
def PerfectPlayer.oppositeCornerFlipArgs (g : Game) : List Nat :=
  g.corners.flatMap fun p => if p.1 = g.next_turn then [p.2.1, p.2.2] else []

/-! ## Well-formedness -/

/-- A cell value is one of the three legal markers. -/
def cellOK (v : Nat) : Prop := v = 0 ∨ v = 1 ∨ v = 10

instance (v : Nat) : Decidable (cellOK v) := by unfold cellOK; infer_instance

/-- The board is a 3x3 grid of legal cell values. -/
def WFBoard (rows : List (List Nat)) : Prop :=
  rows.length = 3 ∧ ∀ r ∈ rows, r.length = 3 ∧ ∀ v ∈ r, cellOK v

instance (rows : List (List Nat)) : Decidable (WFBoard rows) := by
  unfold WFBoard; infer_instance

/-- A well-formed state: well-formed board and a legal mover marker. -/
def Game.WF (g : Game) : Prop :=
  WFBoard g.rows ∧ (g.current_turn = 1 ∨ g.current_turn = 10)

instance (g : Game) : Decidable g.WF := by
  unfold Game.WF; infer_instance

/-- A line holds exactly two cells of marker `m` and one empty cell. -/
def twoPlusOne (values : List Nat) (m : Nat) : Prop :=
  values.count m = 2 ∧ values.count 0 = 1

instance (values : List Nat) (m : Nat) : Decidable (twoPlusOne values m) := by
  unfold twoPlusOne; infer_instance

/-- Destructure a well-formed board into its nine cells. -/
theorem WFBoard.shape {rows : List (List Nat)} (h : WFBoard rows) :
    ∃ c00 c01 c02 c10 c11 c12 c20 c21 c22,
      rows = [[c00, c01, c02], [c10, c11, c12], [c20, c21, c22]] ∧
      cellOK c00 ∧ cellOK c01 ∧ cellOK c02 ∧ cellOK c10 ∧ cellOK c11 ∧
      cellOK c12 ∧ cellOK c20 ∧ cellOK c21 ∧ cellOK c22 := by
  obtain ⟨hlen, hmem⟩ := h
  match rows, hlen with
  | [r0, r1, r2], _ =>
    obtain ⟨h0len, h0⟩ := hmem r0 (by simp)
    obtain ⟨h1len, h1⟩ := hmem r1 (by simp)
    obtain ⟨h2len, h2⟩ := hmem r2 (by simp)
    match r0, h0len, r1, h1len, r2, h2len with
    | [a, b, c], _, [d, e, f], _, [p, q, r], _ =>
      exact ⟨a, b, c, d, e, f, p, q, r, rfl,
        h0 a (by simp), h0 b (by simp), h0 c (by simp),
        h1 d (by simp), h1 e (by simp), h1 f (by simp),
        h2 p (by simp), h2 q (by simp), h2 r (by simp)⟩

/-! ## C9: the coordinate reflection `flip_loc` -/

/-- C9 counterexample: the claim says `flip_loc` leaves 1 unchanged, but
`flip_loc 1 = (1 + 2) % 4 = 3`. -/
theorem flip_loc_one_eq_three : flip_loc 1 = 3 ∧ flip_loc 1 ≠ 1 := by decide

/-- C9 (amended): `flip_loc` maps 0 to 2 and 2 to 0; on input 1 it
yields 3, a value outside the board, rather than leaving 1 unchanged. -/
theorem flip_loc_spec : flip_loc 0 = 2 ∧ flip_loc 2 = 0 ∧ flip_loc 1 = 3 := by decide

/-! ## C4: `SpaceOccupied` exactly on non-empty targets, state unchanged -/

/-- C4: `Game.play` raises `SpaceOccupied` (modelled by the `none`
outcome) iff the target cell is not empty, and on that failure the
whole state — board, `won` flag and `current_turn` — is unchanged. -/
theorem play_spaceOccupied_iff (g : Game) (y x : Nat) :
    ((g.playFull y x).2 = none ↔ g.getCell y x ≠ 0) ∧
    ((g.playFull y x).2 = none → (g.playFull y x).1 = g) := by
  unfold Game.playFull Game.getCell
  by_cases h : (g.rows.getD y []).getD x 0 = 0
  · rw [if_pos h]
    refine ⟨⟨fun hn => ?_, fun hne => absurd h hne⟩, fun hn => ?_⟩ <;>
      · exfalso
        dsimp only at hn
        revert hn
        split_ifs <;> simp
  · rw [if_neg h]
    exact ⟨⟨fun _ => h, fun _ => rfl⟩, fun _ => rfl⟩

/-- Witness for C4 at an occupied target: the cell (0,0) of the given
state holds 1, so the move fails and the state is returned unchanged. -/
theorem play_spaceOccupied_iff_witness :
    (Game.playFull ⟨[[1, 0, 0], [0, 0, 0], [0, 0, 0]], 10, false⟩ 0 0).2 = none ∧
    (Game.playFull ⟨[[1, 0, 0], [0, 0, 0], [0, 0, 0]], 10, false⟩ 0 0).1 =
      ⟨[[1, 0, 0], [0, 0, 0], [0, 0, 0]], 10, false⟩ := by
  have h := play_spaceOccupied_iff ⟨[[1, 0, 0], [0, 0, 0], [0, 0, 0]], 10, false⟩ 0 0
  exact ⟨h.1.mpr (by decide), h.2 (h.1.mpr (by decide))⟩

/-! ## C1: the Perfect player can lose when moving second

The following playthrough starts from a fresh game with the opponent X
moving first and the Perfect player as O.  Every O move below is a
member of the Perfect player's candidate list (the support of its
`random.choice`) at that state — two of the four O moves are forced,
candidate lists of length one — yet the game ends with `won = True`
and `current_turn = 1`: the opponent X wins.  The losing mechanism:
after O takes the center, the "my center, play a side" rule keeps
firing before fork detection, letting X assemble the double threat
(2,2)/(0,2)-(2,0) on row 2 and column 2. -/
theorem perfect_second_mover_can_lose :
    Game.init.play 0 0 = some (⟨[[1, 0, 0], [0, 0, 0], [0, 0, 0]], 10, false⟩, false) ∧
    (PerfectPlayer.step ⟨[[1, 0, 0], [0, 0, 0], [0, 0, 0]], 10, false⟩ true).1 = [(1, 1)] ∧
    (PerfectPlayer.step ⟨[[1, 0, 0], [0, 0, 0], [0, 0, 0]], 10, false⟩ true).2 = false ∧
    Game.play ⟨[[1, 0, 0], [0, 0, 0], [0, 0, 0]], 10, false⟩ 1 1 =
      some (⟨[[1, 0, 0], [0, 10, 0], [0, 0, 0]], 1, false⟩, false) ∧
    Game.play ⟨[[1, 0, 0], [0, 10, 0], [0, 0, 0]], 1, false⟩ 1 2 =
      some (⟨[[1, 0, 0], [0, 10, 1], [0, 0, 0]], 10, false⟩, false) ∧
    (0, 1) ∈ (PerfectPlayer.step ⟨[[1, 0, 0], [0, 10, 1], [0, 0, 0]], 10, false⟩ false).1 ∧
    Game.play ⟨[[1, 0, 0], [0, 10, 1], [0, 0, 0]], 10, false⟩ 0 1 =
      some (⟨[[1, 10, 0], [0, 10, 1], [0, 0, 0]], 1, false⟩, false) ∧
    Game.play ⟨[[1, 10, 0], [0, 10, 1], [0, 0, 0]], 1, false⟩ 2 1 =
      some (⟨[[1, 10, 0], [0, 10, 1], [0, 1, 0]], 10, false⟩, false) ∧
    (PerfectPlayer.step ⟨[[1, 10, 0], [0, 10, 1], [0, 1, 0]], 10, false⟩ false).1 = [(1, 0)] ∧
    Game.play ⟨[[1, 10, 0], [0, 10, 1], [0, 1, 0]], 10, false⟩ 1 0 =
      some (⟨[[1, 10, 0], [10, 10, 1], [0, 1, 0]], 1, false⟩, false) ∧
    Game.play ⟨[[1, 10, 0], [10, 10, 1], [0, 1, 0]], 1, false⟩ 2 2 =
      some (⟨[[1, 10, 0], [10, 10, 1], [0, 1, 1]], 10, false⟩, false) ∧
    (PerfectPlayer.step ⟨[[1, 10, 0], [10, 10, 1], [0, 1, 1]], 10, false⟩ false).1 = [(2, 0)] ∧
    Game.play ⟨[[1, 10, 0], [10, 10, 1], [0, 1, 1]], 10, false⟩ 2 0 =
      some (⟨[[1, 10, 0], [10, 10, 1], [10, 1, 1]], 1, false⟩, false) ∧
    Game.play ⟨[[1, 10, 0], [10, 10, 1], [10, 1, 1]], 1, false⟩ 0 2 =
      some (⟨[[1, 10, 1], [10, 10, 1], [10, 1, 1]], 1, true⟩, true) := by
  decide

/-! ## C10: every `flip_loc` argument is 0 or 2 -/

/-- C10: the argument `_first_play` passes to `flip_loc` and both
arguments the opposite-corner rule passes are always 0 or 2, and
`flip_loc` maps {0, 2} to {0, 2}, so every derived coordinate names a
board cell and `flip_loc 1 = 3` is never consumed. -/
theorem flip_loc_args_ok (g : Game) :
    (∀ a ∈ PerfectPlayer.firstPlayFlipArgs g, a = 0 ∨ a = 2) ∧
    (∀ a ∈ PerfectPlayer.oppositeCornerFlipArgs g, a = 0 ∨ a = 2) ∧
    (∀ a, (a = 0 ∨ a = 2) → (flip_loc a = 2 ∨ flip_loc a = 0) ∧ flip_loc a < 3) := by
  refine ⟨?_, ?_, by rintro a (rfl | rfl) <;> exact ⟨by decide, by decide⟩⟩
  · intro a ha
    unfold PerfectPlayer.firstPlayFlipArgs at ha
    split_ifs at ha with h1 h2 h3
    · simp at ha
    · simp at ha
    · simp at ha
    · rcases hfind : (g.sides.find? fun q => q.1 ≠ 0) with _ | q
      · rw [hfind] at ha
        simp at ha
        omega
      · rw [hfind] at ha
        have hq := List.mem_of_find?_eq_some hfind
        simp only [Game.sides, List.mem_map] at hq
        obtain ⟨p, hp, hpq⟩ := hq
        simp [SIDES] at hp
        rcases hp with rfl | rfl | rfl | rfl <;>
          · subst hpq
            simp at ha
            omega
  · intro a ha
    unfold PerfectPlayer.oppositeCornerFlipArgs at ha
    rw [List.mem_flatMap] at ha
    obtain ⟨p, hp, hap⟩ := ha
    simp only [Game.corners, List.mem_map] at hp
    obtain ⟨c, hc, rfl⟩ := hp
    split_ifs at hap
    · simp [CORNERS] at hc
      rcases hc with rfl | rfl | rfl | rfl <;> simp at hap <;> omega
    · simp at hap

/-- Witness for C10: at the fresh game and argument 0 the inner
implication of the third conjunct is discharged concretely. -/
theorem flip_loc_args_ok_witness :
    (flip_loc 0 = 2 ∨ flip_loc 0 = 0) ∧ flip_loc 0 < 3 :=
  (flip_loc_args_ok Game.init).2.2 0 (by decide)

/-! ## C8: the Random player on a full board -/

/-- C8: asked to move with no empty cell on the board, `RandomPlayer.play`
fails (the spec's `NoLegalMove`) without applying any move: the failure
outcome is produced before `Game.play` is ever called. -/
theorem randomPlayer_full_board (g : Game) (hwf : WFBoard g.rows)
    (hfull : ∀ y, y < 3 → ∀ x, x < 3 → g.getCell y x ≠ 0) :
    RandomPlayer.play g = none := by
  obtain ⟨a, b, c, d, e, f, p, q, r, hrows, -, -, -, -, -, -, -, -, -⟩ := hwf.shape
  have h00 := hfull 0 (by omega) 0 (by omega)
  have h01 := hfull 0 (by omega) 1 (by omega)
  have h02 := hfull 0 (by omega) 2 (by omega)
  have h10 := hfull 1 (by omega) 0 (by omega)
  have h11 := hfull 1 (by omega) 1 (by omega)
  have h12 := hfull 1 (by omega) 2 (by omega)
  have h20 := hfull 2 (by omega) 0 (by omega)
  have h21 := hfull 2 (by omega) 1 (by omega)
  have h22 := hfull 2 (by omega) 2 (by omega)
  simp [Game.getCell, hrows] at h00 h01 h02 h10 h11 h12 h20 h21 h22
  have hopen : RandomPlayer.openList g = [] := by
    simp [RandomPlayer.openList, hrows, List.enum, h00, h01, h02, h10, h11, h12, h20, h21, h22]
  unfold RandomPlayer.play
  rw [if_pos hopen]

/-- Witness for C8: a concrete full drawn board. -/
theorem randomPlayer_full_board_witness :
    RandomPlayer.play ⟨[[1, 10, 1], [10, 1, 10], [10, 1, 10]], 1, false⟩ = none :=
  randomPlayer_full_board _ (by decide) (by decide)

/-! ## Helper lemmas on literal boards -/

/-- The eight lines of a literal board, in source order. -/
theorem lines_literal (a b c d e f p q r t : Nat) (w : Bool) :
    Game.lines ⟨[[a, b, c], [d, e, f], [p, q, r]], t, w⟩ =
      [([a, b, c], [(0, 0), (0, 1), (0, 2)]),
       ([d, e, f], [(1, 0), (1, 1), (1, 2)]),
       ([p, q, r], [(2, 0), (2, 1), (2, 2)]),
       ([a, d, p], [(0, 0), (1, 0), (2, 0)]),
       ([b, e, q], [(0, 1), (1, 1), (2, 1)]),
       ([c, f, r], [(0, 2), (1, 2), (2, 2)]),
       ([a, e, r], [(0, 0), (1, 1), (2, 2)]),
       ([c, e, p], [(0, 2), (1, 1), (2, 0)])] := rfl

/-- Under the cell encoding, a line sums to `2 * m` exactly when it holds
two cells of marker `m` (in {1, 10}) and one empty cell. -/
theorem sum_two_iff (u v w m : Nat) (hu : cellOK u) (hv : cellOK v) (hw : cellOK w)
    (hm : m = 1 ∨ m = 10) : [u, v, w].sum = 2 * m ↔ twoPlusOne [u, v, w] m := by
  rcases hm with rfl | rfl <;> rcases hu with rfl | rfl | rfl <;>
    rcases hv with rfl | rfl | rfl <;> rcases hw with rfl | rfl | rfl <;> decide

/-- Under the cell encoding, a line sums to `3 * m` exactly when all
three of its cells hold marker `m` (in {1, 10}). -/
theorem sum_three_iff (u v w m : Nat) (hu : cellOK u) (hv : cellOK v) (hw : cellOK w)
    (hm : m = 1 ∨ m = 10) : [u, v, w].sum = 3 * m ↔ (u = m ∧ v = m ∧ w = m) := by
  rcases hm with rfl | rfl <;> rcases hu with rfl | rfl | rfl <;>
    rcases hv with rfl | rfl | rfl <;> rcases hw with rfl | rfl | rfl <;> decide

/-- A two-plus-one line is one of three concrete configurations. -/
theorem config_of_twoPlusOne (u v w m : Nat) (_hm : m ≠ 0) (h : twoPlusOne [u, v, w] m) :
    (u = m ∧ v = m ∧ w = 0) ∨ (u = m ∧ v = 0 ∧ w = m) ∨ (u = 0 ∧ v = m ∧ w = m) := by
  obtain ⟨h2, h1⟩ := h
  simp [List.count_cons] at h2 h1
  split_ifs at h2 h1 <;> omega

/-- The draw scan (`0 in row` over the rows) finds a cell exactly when
an empty cell remains on the board. -/
theorem empty_exists_iff (a b c d e f p q r t : Nat) (w : Bool) :
    (([[a, b, c], [d, e, f], [p, q, r]] : List (List Nat)).any fun row => row.contains 0) = true ↔
      (∃ y2, y2 < 3 ∧ ∃ x2, x2 < 3 ∧
        Game.getCell ⟨[[a, b, c], [d, e, f], [p, q, r]], t, w⟩ y2 x2 = 0) := by
  constructor
  · intro h
    simp [List.contains, beq_iff_eq] at h
    rcases h with (h | h | h) | (h | h | h) | (h | h | h)
    · exact ⟨0, by omega, 0, by omega, by simp [Game.getCell]; omega⟩
    · exact ⟨0, by omega, 1, by omega, by simp [Game.getCell]; omega⟩
    · exact ⟨0, by omega, 2, by omega, by simp [Game.getCell]; omega⟩
    · exact ⟨1, by omega, 0, by omega, by simp [Game.getCell]; omega⟩
    · exact ⟨1, by omega, 1, by omega, by simp [Game.getCell]; omega⟩
    · exact ⟨1, by omega, 2, by omega, by simp [Game.getCell]; omega⟩
    · exact ⟨2, by omega, 0, by omega, by simp [Game.getCell]; omega⟩
    · exact ⟨2, by omega, 1, by omega, by simp [Game.getCell]; omega⟩
    · exact ⟨2, by omega, 2, by omega, by simp [Game.getCell]; omega⟩
  · rintro ⟨y2, hy2, x2, hx2, hc⟩
    interval_cases y2 <;> interval_cases x2 <;>
      · simp [Game.getCell] at hc
        simp [List.contains, beq_iff_eq, hc]

/-- `List.set` on a three-element list at literal index 0. -/
theorem set3_zero {α : Type} (x0 x1 x2 a : α) : [x0, x1, x2].set 0 a = [a, x1, x2] := rfl

/-- `List.set` on a three-element list at literal index 1. -/
theorem set3_one {α : Type} (x0 x1 x2 a : α) : [x0, x1, x2].set 1 a = [x0, a, x2] := rfl

/-- `List.set` on a three-element list at literal index 2. -/
theorem set3_two {α : Type} (x0 x1 x2 a : α) : [x0, x1, x2].set 2 a = [x0, x1, a] := rfl

/-- `List.getD` on a three-element list at literal index 0. -/
theorem getD3_zero {α : Type} (x0 x1 x2 d : α) : [x0, x1, x2].getD 0 d = x0 := rfl

/-- `List.getD` on a three-element list at literal index 1. -/
theorem getD3_one {α : Type} (x0 x1 x2 d : α) : [x0, x1, x2].getD 1 d = x1 := rfl

/-- `List.getD` on a three-element list at literal index 2. -/
theorem getD3_two {α : Type} (x0 x1 x2 d : α) : [x0, x1, x2].getD 2 d = x2 := rfl

/-- Indexing a three-element list at literal index 0. -/
theorem getElem3_zero {α : Type} (x0 x1 x2 : α) : ([x0, x1, x2] : List α)[0] = x0 := rfl

/-- Indexing a three-element list at literal index 1. -/
theorem getElem3_one {α : Type} (x0 x1 x2 : α) : ([x0, x1, x2] : List α)[1] = x1 := rfl

/-- Indexing a three-element list at literal index 2. -/
theorem getElem3_two {α : Type} (x0 x1 x2 : α) : ([x0, x1, x2] : List α)[2] = x2 := rfl

/-- Optional indexing of a three-element list at literal index 0. -/
theorem getElemq3_zero {α : Type} (x0 x1 x2 : α) : ([x0, x1, x2] : List α)[0]? = some x0 := rfl

/-- Optional indexing of a three-element list at literal index 1. -/
theorem getElemq3_one {α : Type} (x0 x1 x2 : α) : ([x0, x1, x2] : List α)[1]? = some x1 := rfl

/-- Optional indexing of a three-element list at literal index 2. -/
theorem getElemq3_two {α : Type} (x0 x1 x2 : α) : ([x0, x1, x2] : List α)[2]? = some x2 := rfl

/-- Any line of a well-formed literal board satisfies the sum test for
marker `m` in {1, 10} exactly when it is a two-plus-one line for `m`. -/
theorem line_sum_two_iff (a b c d e f p q r t : Nat) (w : Bool)
    (ka : cellOK a) (kb : cellOK b) (kc : cellOK c) (kd : cellOK d) (ke : cellOK e)
    (kf : cellOK f) (kp : cellOK p) (kq : cellOK q) (kr : cellOK r)
    (m : Nat) (hm : m = 1 ∨ m = 10)
    (l : List Nat × List (Nat × Nat))
    (hl : l ∈ Game.lines ⟨[[a, b, c], [d, e, f], [p, q, r]], t, w⟩) :
    l.1.sum = 2 * m ↔ twoPlusOne l.1 m := by
  rw [lines_literal] at hl
  simp only [List.mem_cons, List.not_mem_nil, or_false] at hl
  rcases hl with rfl | rfl | rfl | rfl | rfl | rfl | rfl | rfl <;>
    exact sum_two_iff _ _ _ m (by assumption) (by assumption) (by assumption) hm

/-- Playing `spaces[values.index(0)]` of a two-plus-one line for the
mover hits an empty cell and immediately wins the game. -/
theorem pick_wins (a b c d e f p q r t : Nat) (w : Bool) (ht : t = 1 ∨ t = 10)
    (l₀ : List Nat × List (Nat × Nat))
    (hl₀ : l₀ ∈ Game.lines ⟨[[a, b, c], [d, e, f], [p, q, r]], t, w⟩)
    (htwo : twoPlusOne l₀.1 t) :
    Game.getCell ⟨[[a, b, c], [d, e, f], [p, q, r]], t, w⟩
        (l₀.2.getD (l₀.1.indexOf 0) (0, 0)).1 (l₀.2.getD (l₀.1.indexOf 0) (0, 0)).2 = 0 ∧
    (Game.play ⟨[[a, b, c], [d, e, f], [p, q, r]], t, w⟩
        (l₀.2.getD (l₀.1.indexOf 0) (0, 0)).1
        (l₀.2.getD (l₀.1.indexOf 0) (0, 0)).2).map (fun s => (s.2, s.1.won)) =
      some (true, true) := by
  rw [lines_literal] at hl₀
  simp only [List.mem_cons, List.not_mem_nil, or_false] at hl₀
  rcases ht with rfl | rfl <;>
    rcases hl₀ with rfl | rfl | rfl | rfl | rfl | rfl | rfl | rfl <;>
      · rcases config_of_twoPlusOne _ _ _ _ (by omega) htwo with
          ⟨h1, h2, h3⟩ | ⟨h1, h2, h3⟩ | ⟨h1, h2, h3⟩ <;>
          · subst h1; subst h2; subst h3
            refine ⟨rfl, ?_⟩
            simp only [List.indexOf_cons, getD3_zero, getD3_one, getD3_two, Nat.reduceBEq,
              cond_false, cond_true]
            simp [Game.play, Game.playFull, lines_literal, set3_zero, set3_one, set3_two,
              getD3_zero, getD3_one, getD3_two, getElem3_zero, getElem3_one, getElem3_two,
              getElemq3_zero, getElemq3_one, getElemq3_two]

/-- `spaces[values.index(0)]` of a two-plus-one line is one of the
line's coordinates and holds an empty cell. -/
theorem pick_mem (a b c d e f p q r t : Nat) (w : Bool) (m : Nat) (hm : m = 1 ∨ m = 10)
    (l₀ : List Nat × List (Nat × Nat))
    (hl₀ : l₀ ∈ Game.lines ⟨[[a, b, c], [d, e, f], [p, q, r]], t, w⟩)
    (htwo : twoPlusOne l₀.1 m) :
    l₀.2.getD (l₀.1.indexOf 0) (0, 0) ∈ l₀.2 ∧
    Game.getCell ⟨[[a, b, c], [d, e, f], [p, q, r]], t, w⟩
        (l₀.2.getD (l₀.1.indexOf 0) (0, 0)).1 (l₀.2.getD (l₀.1.indexOf 0) (0, 0)).2 = 0 := by
  rw [lines_literal] at hl₀
  simp only [List.mem_cons, List.not_mem_nil, or_false] at hl₀
  rcases hm with rfl | rfl <;>
    rcases hl₀ with rfl | rfl | rfl | rfl | rfl | rfl | rfl | rfl <;>
      · rcases config_of_twoPlusOne _ _ _ _ (by omega) htwo with
          ⟨h1, h2, h3⟩ | ⟨h1, h2, h3⟩ | ⟨h1, h2, h3⟩ <;>
          · subst h1; subst h2; subst h3
            refine ⟨?_, rfl⟩
            simp only [List.indexOf_cons, getD3_zero, getD3_one, getD3_two, Nat.reduceBEq,
              cond_false, cond_true]
            simp

/-! ## C3: the Tactical player's Win and Block rules -/

/-- C3: whenever some line holds exactly two of the mover's markers and
one empty cell, `SmartPlayer` chooses an empty cell whose play ends the
game won on the spot, even if a blocking move also exists (the Win scan
runs over all lines before Block); with no such winning line but a
two-plus-one line for the opponent, it chooses the empty cell of such a
line; and the `sum(values) == 2 * marker` test characterises
two-plus-one lines under the 0/1/10 encoding. -/
theorem smart_win_block_spec (g : Game) (hwf : g.WF) :
    ((∃ l ∈ g.lines, twoPlusOne l.1 g.current_turn) →
      ∃ mv ∈ (SmartPlayer.move g).toList,
        g.getCell mv.1 mv.2 = 0 ∧
        (g.play mv.1 mv.2).map (fun s => (s.2, s.1.won)) = some (true, true)) ∧
    ((∀ l ∈ g.lines, ¬ twoPlusOne l.1 g.current_turn) →
      (∃ l ∈ g.lines, twoPlusOne l.1 g.next_turn) →
      ∃ mv ∈ (SmartPlayer.move g).toList,
        ∃ l ∈ g.lines, twoPlusOne l.1 g.next_turn ∧ mv ∈ l.2 ∧ g.getCell mv.1 mv.2 = 0) ∧
    (∀ m, (m = 1 ∨ m = 10) → ∀ l ∈ g.lines, (l.1.sum = 2 * m ↔ twoPlusOne l.1 m)) := by
  obtain ⟨rows, t, w⟩ := g
  obtain ⟨hb, ht⟩ := hwf
  obtain ⟨a, b, c, d, e, f, p, q, r, hrows, ka, kb, kc, kd, ke, kf, kp, kq, kr⟩ :=
    WFBoard.shape hb
  subst hrows
  refine ⟨?_, ?_, ?_⟩
  · -- Win rule
    intro hex
    obtain ⟨l, hl, htwo⟩ := hex
    have hsum : l.1.sum = 2 * t :=
      (line_sum_two_iff a b c d e f p q r t w ka kb kc kd ke kf kp kq kr t ht l hl).mpr htwo
    have hne : SmartPlayer.winMove ⟨[[a, b, c], [d, e, f], [p, q, r]], t, w⟩ ≠ none := by
      rw [SmartPlayer.winMove]
      intro hn
      rw [List.findSome?_eq_none_iff] at hn
      have h2 := hn l hl
      rw [if_pos hsum] at h2
      simp at h2
    obtain ⟨mv, hmv⟩ := Option.ne_none_iff_exists'.mp hne
    have hmove : SmartPlayer.move ⟨[[a, b, c], [d, e, f], [p, q, r]], t, w⟩ = some mv := by
      rw [SmartPlayer.move, hmv]
    have hfs := hmv
    rw [SmartPlayer.winMove] at hfs
    obtain ⟨l₀, hl₀, hf⟩ := List.exists_of_findSome?_eq_some hfs
    by_cases hs₀ : l₀.1.sum = 2 * t
    · rw [if_pos hs₀] at hf
      have hmveq : l₀.2.getD (l₀.1.indexOf 0) (0, 0) = mv := Option.some.inj hf
      have htwo₀ : twoPlusOne l₀.1 t :=
        (line_sum_two_iff a b c d e f p q r t w ka kb kc kd ke kf kp kq kr t ht l₀ hl₀).mp hs₀
      have hp := pick_wins a b c d e f p q r t w ht l₀ hl₀ htwo₀
      rw [hmveq] at hp
      exact ⟨mv, by simp [hmove], hp.1, hp.2⟩
    · rw [if_neg hs₀] at hf
      simp at hf
  · -- Block rule
    intro hnone hex
    have hwnone : SmartPlayer.winMove ⟨[[a, b, c], [d, e, f], [p, q, r]], t, w⟩ = none := by
      rw [SmartPlayer.winMove, List.findSome?_eq_none_iff]
      intro l hl
      have hns : ¬ (l.1.sum = 2 * t) := fun hs =>
        hnone l hl
          ((line_sum_two_iff a b c d e f p q r t w ka kb kc kd ke kf kp kq kr t ht l hl).mp hs)
      rw [if_neg hns]
    obtain ⟨l, hl, htwo⟩ := hex
    have hmnext : (Game.next_turn ⟨[[a, b, c], [d, e, f], [p, q, r]], t, w⟩ = 1 ∨
        Game.next_turn ⟨[[a, b, c], [d, e, f], [p, q, r]], t, w⟩ = 10) := by
      rcases ht with rfl | rfl <;> simp [Game.next_turn]
    have hsum : l.1.sum = 2 * Game.next_turn ⟨[[a, b, c], [d, e, f], [p, q, r]], t, w⟩ :=
      (line_sum_two_iff a b c d e f p q r t w ka kb kc kd ke kf kp kq kr _ hmnext l hl).mpr htwo
    have hne : SmartPlayer.blockMove ⟨[[a, b, c], [d, e, f], [p, q, r]], t, w⟩ ≠ none := by
      rw [SmartPlayer.blockMove]
      intro hn
      rw [List.findSome?_eq_none_iff] at hn
      have h2 := hn l hl
      rw [if_pos hsum] at h2
      simp at h2
    obtain ⟨mv, hmv⟩ := Option.ne_none_iff_exists'.mp hne
    have hmove : SmartPlayer.move ⟨[[a, b, c], [d, e, f], [p, q, r]], t, w⟩ = some mv := by
      rw [SmartPlayer.move, hwnone]
      exact hmv
    have hfs := hmv
    rw [SmartPlayer.blockMove] at hfs
    obtain ⟨l₀, hl₀, hf⟩ := List.exists_of_findSome?_eq_some hfs
    by_cases hs₀ : l₀.1.sum = 2 * Game.next_turn ⟨[[a, b, c], [d, e, f], [p, q, r]], t, w⟩
    · rw [if_pos hs₀] at hf
      have hmveq : l₀.2.getD (l₀.1.indexOf 0) (0, 0) = mv := Option.some.inj hf
      have htwo₀ : twoPlusOne l₀.1
          (Game.next_turn ⟨[[a, b, c], [d, e, f], [p, q, r]], t, w⟩) :=
        (line_sum_two_iff a b c d e f p q r t w ka kb kc kd ke kf kp kq kr _ hmnext l₀ hl₀).mp hs₀
      have hp := pick_mem a b c d e f p q r t w _ hmnext l₀ hl₀ htwo₀
      rw [hmveq] at hp
      exact ⟨mv, by simp [hmove], l₀, hl₀, htwo₀, hp.1, hp.2⟩
    · rw [if_neg hs₀] at hf
      simp at hf
  · -- sum test characterisation
    intro m hm l hl
    exact line_sum_two_iff a b c d e f p q r t w ka kb kc kd ke kf kp kq kr m hm l hl

/-- Witness for C3 at a concrete state: X holds (0,0) and (0,1), O holds
the center, X to move; the Win-rule hypothesis is discharged and the
spec's expected cell (0,2) is chosen, winning at once. -/
theorem smart_win_block_spec_witness :
    ∃ mv ∈ (SmartPlayer.move ⟨[[1, 1, 0], [0, 10, 0], [0, 0, 0]], 1, false⟩).toList,
      Game.getCell ⟨[[1, 1, 0], [0, 10, 0], [0, 0, 0]], 1, false⟩ mv.1 mv.2 = 0 ∧
      (Game.play ⟨[[1, 1, 0], [0, 10, 0], [0, 0, 0]], 1, false⟩ mv.1 mv.2).map
        (fun s => (s.2, s.1.won)) = some (true, true) :=
  (smart_win_block_spec ⟨[[1, 1, 0], [0, 10, 0], [0, 0, 0]], 1, false⟩ (by decide)).1
    (by decide)

/-- The win scan `sum(values) == 3 * m` over the lines of a well-formed
literal board succeeds exactly when some line holds three cells of
marker `m` (in {1, 10}). -/
theorem any_sum_iff_exwin (a b c d e f p q r t2 m : Nat) (w : Bool)
    (ka : cellOK a) (kb : cellOK b) (kc : cellOK c) (kd : cellOK d) (ke : cellOK e)
    (kf : cellOK f) (kp : cellOK p) (kq : cellOK q) (kr : cellOK r)
    (hm : m = 1 ∨ m = 10) :
    ((Game.lines ⟨[[a, b, c], [d, e, f], [p, q, r]], t2, w⟩).any
        fun vs => vs.1.sum = 3 * m) = true ↔
      ∃ l ∈ Game.lines ⟨[[a, b, c], [d, e, f], [p, q, r]], t2, w⟩, ∀ v ∈ l.1, v = m := by
  rw [List.any_eq_true]
  constructor
  · rintro ⟨vs, hvs, hsum⟩
    have hsum' := of_decide_eq_true hsum
    refine ⟨vs, hvs, ?_⟩
    rw [lines_literal] at hvs
    simp only [List.mem_cons, List.not_mem_nil, or_false] at hvs
    intro v hv
    rcases hvs with rfl | rfl | rfl | rfl | rfl | rfl | rfl | rfl <;>
      · obtain ⟨e1, e2, e3⟩ := (sum_three_iff _ _ _ m (by assumption) (by assumption)
          (by assumption) hm).mp hsum'
        simp at hv
        rcases hv with rfl | rfl | rfl <;> assumption
  · rintro ⟨vs, hvs, hall⟩
    refine ⟨vs, hvs, ?_⟩
    rw [decide_eq_true_eq]
    rw [lines_literal] at hvs
    simp only [List.mem_cons, List.not_mem_nil, or_false] at hvs
    rcases hvs with rfl | rfl | rfl | rfl | rfl | rfl | rfl | rfl <;>
      exact (sum_three_iff _ _ _ m (by assumption) (by assumption) (by assumption) hm).mpr
        ⟨hall _ (by simp), hall _ (by simp), hall _ (by simp)⟩

/-! ## C2: the `Game.play` contract -/

/-- C2: on an empty target cell, `play` sets that cell to the mover's
marker; it ends the game with `won` exactly when some line holds three
of the mover's marker, ends it with `won` still false exactly when no
such line exists and no empty cell remains, and otherwise continues
with the turn advanced; in both game-over cases the turn is not
advanced, so `current_turn` still names the final mover. -/
theorem play_result_spec (g : Game) (hwf : g.WF) (hwon : g.won = false)
    (y x : Nat) (hy : y < 3) (hx : x < 3) (hempty : g.getCell y x = 0) :
    ∃ g1 over, g.play y x = some (g1, over) ∧
      g1.getCell y x = g.current_turn ∧
      ((over = true ∧ g1.won = true) ↔ ∃ l ∈ g1.lines, ∀ v ∈ l.1, v = g.current_turn) ∧
      ((over = true ∧ g1.won = false) ↔
        ((¬ ∃ l ∈ g1.lines, ∀ v ∈ l.1, v = g.current_turn) ∧
          ¬ ∃ y2, y2 < 3 ∧ ∃ x2, x2 < 3 ∧ g1.getCell y2 x2 = 0)) ∧
      (over = false ↔
        ((¬ ∃ l ∈ g1.lines, ∀ v ∈ l.1, v = g.current_turn) ∧
          ∃ y2, y2 < 3 ∧ ∃ x2, x2 < 3 ∧ g1.getCell y2 x2 = 0)) ∧
      (over = true → g1.current_turn = g.current_turn) ∧
      (over = false → g1.current_turn = g.next_turn) := by
  obtain ⟨rows, t, w⟩ := g
  obtain ⟨hb, ht⟩ := hwf
  obtain ⟨a, b, c, d, e, f, p, q, r, hrows, ka, kb, kc, kd, ke, kf, kp, kq, kr⟩ :=
    WFBoard.shape hb
  subst hrows
  have hw0 : w = false := hwon
  subst hw0
  have kt : cellOK t := by
    rcases ht with rfl | rfl
    · exact Or.inr (Or.inl rfl)
    · exact Or.inr (Or.inr rfl)
  interval_cases y <;> interval_cases x <;>
    · simp only [Game.getCell, getD3_zero, getD3_one, getD3_two] at hempty
      subst hempty
      simp only [Game.play, Game.playFull, getD3_zero, getD3_one, getD3_two,
        set3_zero, set3_one, set3_two, reduceIte]
      split_ifs with hW hD
      · -- win branch
        have hexwin := (any_sum_iff_exwin _ _ _ _ _ _ _ _ _ _ _ _ (by assumption)
          (by assumption) (by assumption) (by assumption) (by assumption) (by assumption)
          (by assumption) (by assumption) (by assumption) ht).mp hW
        exact ⟨_, _, rfl, rfl, iff_of_true ⟨rfl, rfl⟩ hexwin,
          iff_of_false (by simp) (fun hcon => hcon.1 hexwin),
          iff_of_false (by simp) (fun hcon => hcon.1 hexwin),
          fun _ => rfl, fun hh => by simp at hh⟩
      · -- continuing branch
        exact ⟨_, _, rfl, rfl,
          iff_of_false (by simp) (fun hex => hW ((any_sum_iff_exwin _ _ _ _ _ _ _ _ _ _ _ _
            (by assumption) (by assumption) (by assumption) (by assumption) (by assumption)
            (by assumption) (by assumption) (by assumption) (by assumption) ht).mpr hex)),
          iff_of_false (by simp)
            (fun hcon => hcon.2 ((empty_exists_iff _ _ _ _ _ _ _ _ _ _ _).mp hD)),
          iff_of_true rfl
            ⟨fun hex => hW ((any_sum_iff_exwin _ _ _ _ _ _ _ _ _ _ _ _ (by assumption)
              (by assumption) (by assumption) (by assumption) (by assumption) (by assumption)
              (by assumption) (by assumption) (by assumption) ht).mpr hex),
              (empty_exists_iff _ _ _ _ _ _ _ _ _ _ _).mp hD⟩,
          fun hh => by simp at hh, fun _ => rfl⟩
      · -- draw branch
        exact ⟨_, _, rfl, rfl,
          iff_of_false (by simp) (fun hex => hW ((any_sum_iff_exwin _ _ _ _ _ _ _ _ _ _ _ _
            (by assumption) (by assumption) (by assumption) (by assumption) (by assumption)
            (by assumption) (by assumption) (by assumption) (by assumption) ht).mpr hex)),
          iff_of_true ⟨rfl, rfl⟩
            ⟨fun hex => hW ((any_sum_iff_exwin _ _ _ _ _ _ _ _ _ _ _ _ (by assumption)
              (by assumption) (by assumption) (by assumption) (by assumption) (by assumption)
              (by assumption) (by assumption) (by assumption) ht).mpr hex),
              fun hex => hD ((empty_exists_iff _ _ _ _ _ _ _ _ _ _ _).mpr hex)⟩,
          iff_of_false (by simp)
            (fun hcon => hD ((empty_exists_iff _ _ _ _ _ _ _ _ _ _ _).mpr hcon.2)),
          fun _ => rfl, fun hh => by simp at hh⟩

/-- Witness for C2: playing the first cell of a fresh game continues the
game with the turn advanced. -/
theorem play_result_spec_witness :
    ∃ g1 over, Game.init.play 0 0 = some (g1, over) ∧
      g1.getCell 0 0 = Game.init.current_turn ∧
      ((over = true ∧ g1.won = true) ↔
        ∃ l ∈ g1.lines, ∀ v ∈ l.1, v = Game.init.current_turn) ∧
      ((over = true ∧ g1.won = false) ↔
        ((¬ ∃ l ∈ g1.lines, ∀ v ∈ l.1, v = Game.init.current_turn) ∧
          ¬ ∃ y2, y2 < 3 ∧ ∃ x2, x2 < 3 ∧ g1.getCell y2 x2 = 0)) ∧
      (over = false ↔
        ((¬ ∃ l ∈ g1.lines, ∀ v ∈ l.1, v = Game.init.current_turn) ∧
          ∃ y2, y2 < 3 ∧ ∃ x2, x2 < 3 ∧ g1.getCell y2 x2 = 0)) ∧
      (over = true → g1.current_turn = Game.init.current_turn) ∧
      (over = false → g1.current_turn = Game.init.next_turn) :=
  play_result_spec Game.init (by decide) rfl 0 0 (by omega) (by omega) (by decide)

/-! ## C5: one-cell frame property and no reverts -/

/-- A 3x3 board shape (no constraint on the cell values). -/
def BoardShape (rows : List (List Nat)) : Prop :=
  rows.length = 3 ∧ ∀ r ∈ rows, r.length = 3

instance (rows : List (List Nat)) : Decidable (BoardShape rows) := by
  unfold BoardShape; infer_instance

/-- Destructure a 3x3 board into its nine cells. -/
theorem BoardShape.nine {rows : List (List Nat)} (h : BoardShape rows) :
    ∃ c00 c01 c02 c10 c11 c12 c20 c21 c22,
      rows = [[c00, c01, c02], [c10, c11, c12], [c20, c21, c22]] := by
  obtain ⟨hlen, hmem⟩ := h
  match rows, hlen with
  | [r0, r1, r2], _ =>
    have h0len := hmem r0 (by simp)
    have h1len := hmem r1 (by simp)
    have h2len := hmem r2 (by simp)
    match r0, h0len, r1, h1len, r2, h2len with
    | [a, b, c], _, [d, e, f], _, [p, q, r], _ =>
      exact ⟨a, b, c, d, e, f, p, q, r, rfl⟩

/-- One legal move between two states (some in-range `play` succeeded). -/
def Step (g g1 : Game) : Prop :=
  ∃ y x over, y < 3 ∧ x < 3 ∧ g.play y x = some (g1, over)

/-- A finite sequence of legal moves. -/
def Steps : Game → Game → Prop := Relation.ReflTransGen Step

/-- Frame property of a single successful `play`: the target was empty,
now holds the mover's marker, the board stays 3x3, and every other
cell is untouched. -/
theorem play_frame (g : Game) (y x : Nat) (g1 : Game) (over : Bool)
    (hb : BoardShape g.rows) (hy : y < 3) (hx : x < 3)
    (hp : g.play y x = some (g1, over)) :
    g.getCell y x = 0 ∧ g1.getCell y x = g.current_turn ∧ BoardShape g1.rows ∧
    ∀ y2 x2, y2 < 3 → x2 < 3 → ¬(y2 = y ∧ x2 = x) → g1.getCell y2 x2 = g.getCell y2 x2 := by
  obtain ⟨rows, t, w⟩ := g
  obtain ⟨a, b, c, d, e, f, p, q, r, hrows⟩ := hb.nine
  subst hrows
  interval_cases y <;> interval_cases x <;>
    · simp only [Game.play, Game.playFull, getD3_zero, getD3_one, getD3_two,
        set3_zero, set3_one, set3_two] at hp
      split_ifs at hp with hc hW hD <;>
        · simp only [Option.some.injEq, Prod.mk.injEq] at hp
          obtain ⟨h1, h2⟩ := hp
          subst h1
          subst h2
          refine ⟨hc, rfl, ⟨rfl, ?_⟩, ?_⟩
          · intro r2 hr2
            simp at hr2
            rcases hr2 with rfl | rfl | rfl <;> rfl
          · intro y2 x2 hy2 hx2 hne
            interval_cases y2 <;> interval_cases x2 <;>
              first
                | rfl
                | exact absurd ⟨rfl, rfl⟩ hne

/-- Legal move sequences preserve the 3x3 board shape. -/
theorem steps_shape {g g1 : Game} (hsteps : Steps g g1) (hs : BoardShape g.rows) :
    BoardShape g1.rows := by
  induction hsteps with
  | refl => exact hs
  | tail hab hstep ih =>
    obtain ⟨y, x, over, hy, hx, hp⟩ := hstep
    exact (play_frame _ _ _ _ _ ih hy hx hp).2.2.1

/-- C5: every successful `play` changes exactly the targeted cell, from
empty to the mover's marker, leaving the other eight cells unchanged;
and across any sequence of legal moves an occupied cell never reverts
to empty or switches to the other marker (its value is preserved). -/
theorem play_frame_and_no_revert :
    (∀ (g : Game) (y x : Nat) (g1 : Game) (over : Bool),
      BoardShape g.rows → y < 3 → x < 3 → g.play y x = some (g1, over) →
      g.getCell y x = 0 ∧ g1.getCell y x = g.current_turn ∧
      ∀ y2 x2, y2 < 3 → x2 < 3 → ¬(y2 = y ∧ x2 = x) →
        g1.getCell y2 x2 = g.getCell y2 x2) ∧
    (∀ g g1 : Game, Steps g g1 → BoardShape g.rows →
      ∀ y x, y < 3 → x < 3 → g.getCell y x ≠ 0 → g1.getCell y x = g.getCell y x) := by
  constructor
  · intro g y x g1 over hb hy hx hp
    obtain ⟨h1, h2, _, h4⟩ := play_frame g y x g1 over hb hy hx hp
    exact ⟨h1, h2, h4⟩
  · intro g g1 hsteps hs y x hy hx hocc
    induction hsteps with
    | refl => rfl
    | tail hab hstep ih =>
      obtain ⟨y3, x3, over3, hy3, hx3, hp3⟩ := hstep
      have hshape := steps_shape hab hs
      obtain ⟨hb0, -, -, hfr⟩ := play_frame _ _ _ _ _ hshape hy3 hx3 hp3
      by_cases heq : y = y3 ∧ x = x3
      · obtain ⟨rfl, rfl⟩ := heq
        rw [ih] at hb0
        exact absurd hb0 hocc
      · rw [hfr y x hy hx heq]
        exact ih

/-- Witness for C5: the first move of a fresh game, and preservation
along the empty sequence of moves. -/
theorem play_frame_and_no_revert_witness :
    (Game.init.getCell 0 0 = 0 ∧
      Game.getCell ⟨[[1, 0, 0], [0, 0, 0], [0, 0, 0]], 10, false⟩ 0 0 = Game.init.current_turn ∧
      ∀ y2 x2, y2 < 3 → x2 < 3 → ¬(y2 = 0 ∧ x2 = 0) →
        Game.getCell ⟨[[1, 0, 0], [0, 0, 0], [0, 0, 0]], 10, false⟩ y2 x2 =
          Game.init.getCell y2 x2) ∧
    Game.getCell ⟨[[1, 0, 0], [0, 0, 0], [0, 0, 0]], 10, false⟩ 0 0 =
      Game.getCell ⟨[[1, 0, 0], [0, 0, 0], [0, 0, 0]], 10, false⟩ 0 0 :=
  ⟨play_frame_and_no_revert.1 Game.init 0 0 ⟨[[1, 0, 0], [0, 0, 0], [0, 0, 0]], 10, false⟩ false
      (by decide) (by omega) (by omega) (by decide),
    play_frame_and_no_revert.2 ⟨[[1, 0, 0], [0, 0, 0], [0, 0, 0]], 10, false⟩
      ⟨[[1, 0, 0], [0, 0, 0], [0, 0, 0]], 10, false⟩ Relation.ReflTransGen.refl
      (by decide) 0 0 (by omega) (by omega) (by decide)⟩

/-! ## C6: the opening move on an empty board -/

/-- The states reachable from a fresh game by legal in-range moves. -/
inductive Reaches : Game → Prop where
  | init : Reaches Game.init
  | step {g g1 : Game} {y x : Nat} {over : Bool} :
      Reaches g → y < 3 → x < 3 → g.play y x = some (g1, over) → Reaches g1

/-- A successful in-range `play` preserves well-formedness. -/
theorem play_preserves_WF (g : Game) (y x : Nat) (g1 : Game) (over : Bool)
    (hwf : g.WF) (hy : y < 3) (hx : x < 3) (hp : g.play y x = some (g1, over)) :
    g1.WF := by
  obtain ⟨rows, t, w⟩ := g
  obtain ⟨hb, ht⟩ := hwf
  obtain ⟨a, b, c, d, e, f, p, q, r, hrows, ka, kb, kc, kd, ke, kf, kp, kq, kr⟩ :=
    WFBoard.shape hb
  subst hrows
  have kt : cellOK t := by
    rcases ht with rfl | rfl
    · exact Or.inr (Or.inl rfl)
    · exact Or.inr (Or.inr rfl)
  interval_cases y <;> interval_cases x <;>
    · simp only [Game.play, Game.playFull, getD3_zero, getD3_one, getD3_two,
        set3_zero, set3_one, set3_two] at hp
      split_ifs at hp with hc hW hD <;>
        · simp only [Option.some.injEq, Prod.mk.injEq] at hp
          obtain ⟨h1, h2⟩ := hp
          subst h1
          refine ⟨⟨rfl, ?_⟩, ?_⟩
          · intro r2 hr2
            simp at hr2
            rcases hr2 with rfl | rfl | rfl <;>
              exact ⟨rfl, by intro v hv; simp at hv; rcases hv with rfl | rfl | rfl <;> assumption⟩
          · first
              | exact ht
              | (rcases ht with rfl | rfl <;> first | exact Or.inl rfl | exact Or.inr rfl)

/-- Every reachable state is well formed. -/
theorem Reaches.wf {g : Game} (hr : Reaches g) : g.WF := by
  induction hr with
  | init => exact ⟨by decide, Or.inl rfl⟩
  | step hr2 hy hx hp ih => exact play_preserves_WF _ _ _ _ _ ih hy hx hp

/-- Reading any cell of the empty board yields 0. -/
theorem emptyRows_getD (y x : Nat) :
    (([[0, 0, 0], [0, 0, 0], [0, 0, 0]] : List (List Nat)).getD y []).getD x 0 = 0 := by
  rcases y with _ | _ | _ | y <;> rcases x with _ | _ | _ | x <;> rfl

/-- The only reachable state with an empty board is the fresh game
itself (every move writes a nonzero marker that is never erased). -/
theorem Reaches.empty_is_init {g : Game} (hr : Reaches g)
    (hempty : g.rows = [[0, 0, 0], [0, 0, 0], [0, 0, 0]]) : g = Game.init := by
  induction hr with
  | init => rfl
  | step hr2 hy hx hp ih =>
    exfalso
    obtain ⟨hb, ht⟩ := Reaches.wf hr2
    have hshape : BoardShape _ := ⟨hb.1, fun r2 hrr => (hb.2 r2 hrr).1⟩
    obtain ⟨-, hset, -, -⟩ := play_frame _ _ _ _ _ hshape hy hx hp
    unfold Game.getCell at hset
    rw [hempty, emptyRows_getD] at hset
    rcases ht with h | h <;> rw [h] at hset <;> simp at hset

/-- C6: invoked on an empty board (necessarily the fresh game, whichever
side the strategy serves — the opening logic branches only on the
state), the Perfect player's first move is drawn uniformly from the
four corners: its candidate support is exactly `CORNERS`. -/
theorem perfect_opening_corner (g : Game) (hr : Reaches g)
    (hempty : g.rows = [[0, 0, 0], [0, 0, 0], [0, 0, 0]]) :
    PerfectPlayer.step g true = (CORNERS, false) := by
  have hgi := Reaches.empty_is_init hr hempty
  subst hgi
  decide

/-- Witness for C6 at the fresh game. -/
theorem perfect_opening_corner_witness :
    PerfectPlayer.step Game.init true = (CORNERS, false) :=
  perfect_opening_corner Game.init Reaches.init rfl

/-! ## C7: the opposite-corner rule -/

/-- C7 counterexample: in the claim's scenario — PlayerA at corner
(0,0), PlayerB (the Perfect player, past its opening) holding the
center and to move, (2,2) empty — the strategy does *not* select
(2,2): the earlier "my center, play a side" rule fires, so the
candidate support is the four side cells and (2,2) is not among them
under any random resolution. -/
theorem opposite_corner_scenario_plays_side :
    (PerfectPlayer.step ⟨[[1, 0, 0], [0, 10, 0], [0, 0, 0]], 10, false⟩ false).1 =
      [(0, 1), (1, 0), (1, 2), (2, 1)] ∧
    (2, 2) ∉ (PerfectPlayer.step ⟨[[1, 0, 0], [0, 10, 0], [0, 0, 0]], 10, false⟩ false).1 := by
  decide

/-- C7 (amended): when the steady-state chain actually reaches the
opposite-corner rule — no Win/Block move, no empty side available to
the center-side rule, no fork point for either marker, center occupied
— with the opponent on corner (0,0): the rule selects (2,2) when it is
empty; when (2,2) is occupied and no other opponent corner has an
empty opposite, the chain falls through to the any-corner rule. -/
theorem opposite_corner_rule (g : Game)
    (hsmart : SmartPlayer.move g = none)
    (hsides : PerfectPlayer.emptySides g = [])
    (hfork1 : PerfectPlayer.forkMoves g 1 = [])
    (hfork10 : PerfectPlayer.forkMoves g 10 = [])
    (hcenter : g.getCell 1 1 ≠ 0)
    (hcorner : g.getCell 0 0 = g.next_turn) :
    (g.getCell 2 2 = 0 → (PerfectPlayer.step g false).1 = [(2, 2)]) ∧
    (g.getCell 2 2 ≠ 0 →
      (∀ pp ∈ CORNERS, g.getCell pp.1 pp.2 = g.next_turn →
        g.getCell (flip_loc pp.1) (flip_loc pp.2) ≠ 0) →
      PerfectPlayer.emptyCorners g ≠ [] →
      (PerfectPlayer.step g false).1 = PerfectPlayer.emptyCorners g) := by
  unfold PerfectPlayer.step
  rw [hsmart]
  unfold PerfectPlayer.steadyCandidates
  rw [hsides, hfork1, hfork10]
  simp only [ite_self]
  rw [if_neg (by simp), if_neg (by simp), if_neg (by simp), if_neg hcenter]
  constructor
  · intro h22
    have hopp : PerfectPlayer.oppositeCornerMove g = some (2, 2) := by
      unfold PerfectPlayer.oppositeCornerMove Game.corners
      simp [CORNERS, List.findSome?_cons, hcorner, flip_loc, h22]
    rw [hopp]
    simp
  · rintro h22 hnone hec
    have hopp : PerfectPlayer.oppositeCornerMove g = none := by
      unfold PerfectPlayer.oppositeCornerMove
      rw [List.findSome?_eq_none_iff]
      intro pp hpp
      simp only [Game.corners, List.mem_map] at hpp
      obtain ⟨cc, hcc, rfl⟩ := hpp
      by_cases hv : g.getCell cc.1 cc.2 = g.next_turn
      · rw [if_pos hv, if_neg (hnone cc hcc hv)]
      · rw [if_neg hv]
    rw [hopp]
    simp [hec]

/-- Witness for C7's amended rule: two concrete states where all the
earlier rules are inert; in the first (2,2) is empty and is selected,
in the second (2,2) is occupied and the empty corners are offered. -/
theorem opposite_corner_rule_witness :
    (PerfectPlayer.step ⟨[[1, 10, 1], [1, 10, 10], [10, 1, 0]], 10, false⟩ false).1 =
      [(2, 2)] ∧
    (PerfectPlayer.step ⟨[[1, 10, 0], [10, 10, 1], [0, 1, 10]], 10, false⟩ false).1 =
      PerfectPlayer.emptyCorners ⟨[[1, 10, 0], [10, 10, 1], [0, 1, 10]], 10, false⟩ :=
  ⟨(opposite_corner_rule _ (by decide) (by decide) (by decide) (by decide) (by decide)
      (by decide)).1 (by decide),
    (opposite_corner_rule _ (by decide) (by decide) (by decide) (by decide) (by decide)
      (by decide)).2 (by decide) (by decide) (by decide)⟩

end TicTacToe
